import Mathlib

/-!
Shallow embedding of the go-circuit-breaker repository: the windowed
aggregation engine (circuit_breaker.go, bucket.go) and the cache layer
(cache.go), with theorems checking the specification's claims.

Time is modelled as whole seconds since Go's zero time
(January 1, year 1, 00:00:00 UTC); `time.Duration` values are whole
seconds as well (every duration appearing in the system is a whole
number of seconds).  Go's `time.Time` is signed; the embedding uses `Nat`
and is faithful on the range where no intermediate time underflows,
which theorems guard with hypotheses such as `windowDuration ≤ now`.
-/

namespace CircuitBreaker

/-- Go `time.Duration`, in whole seconds. -/
abbrev Duration := Nat

def minuteSec : Duration := 60

def hourSec : Duration := 3600

/-- Go `t.Truncate(d)` for nonnegative instants: round down to the nearest
multiple of `d` since the zero time; nonpositive `d` leaves `t` unchanged. -/
def truncate (t : Nat) (d : Duration) : Nat :=
  if d = 0 then t else d * (t / d)

/-- The regular expression `ParseNameFromDurationRegex` applied to Go
`Duration.String()`: the canonical text of a nonnegative whole-second
duration starts with the hour component when there is one (for example
"26h3m4s"), otherwise with the minute component (for example "5m0s"),
otherwise with seconds, which the pattern (leading digits followed by
the letter h or m) does not match, giving the empty string. -/
def durationShortName (d : Duration) : String :=
  if 3600 ≤ d then toString (d / 3600) ++ "h"
  else if 60 ≤ d then toString (d / 60) ++ "m"
  else ""

/-- bucket.go: a time-resolution descriptor (`duration` in whole seconds). -/
structure Bucket where
  duration : Nat
  name : String
deriving Repr, DecidableEq

/-- bucket.go `NewBucket`: derive the short name from the duration once. -/
def NewBucket (duration : Duration) : Bucket :=
  { duration := duration, name := durationShortName duration }

/-- Proleptic-Gregorian civil date from a count of days since 0000-03-01
(the standard era-based conversion, as Go's calendar arithmetic computes). -/
def civilFromDays (z : Nat) : Nat × Nat × Nat :=
  let era := z / 146097
  let doe := z % 146097
  let yoe := (doe - doe / 1460 + doe / 36524 - doe / 146096) / 365
  let doy := doe - (365 * yoe + yoe / 4 - yoe / 100)
  let mp := (5 * doy + 2) / 153
  let d := doy - (153 * mp + 2) / 5 + 1
  let m := if mp < 10 then mp + 3 else mp - 9
  let y := yoe + era * 400 + (if m ≤ 2 then 1 else 0)
  (y, m, d)

/-- Days since 0000-03-01 of a proleptic-Gregorian civil date. -/
def daysFromCivil (y m d : Nat) : Nat :=
  let y2 := y - (if m ≤ 2 then 1 else 0)
  let era := y2 / 400
  let yoe := y2 % 400
  let mp := if 2 < m then m - 3 else m + 9
  let doy := (153 * mp + 2) / 5 + d - 1
  let doe := yoe * 365 + yoe / 4 - yoe / 100 + doy
  era * 146097 + doe

/-- Left-pad a decimal numeral with zeros to the given width. -/
def padNum (width n : Nat) : String :=
  let s := toString n
  (List.replicate (width - s.length) '0').asString ++ s

/-- Go `Format(TimePointStrFormat)` with layout "200601021504":
the instant rendered as a fixed-width YYYYMMDDhhmm string (UTC).
The offset 306 converts days since 0001-01-01 (Go's zero time) to days
since 0000-03-01 as `civilFromDays` expects. -/
def formatTimePoint (t : Nat) : String :=
  let totalMin := t / 60
  let day := totalMin / 1440
  let hh := totalMin % 1440 / 60
  let mm := totalMin % 60
  let c := civilFromDays (day + 306)
  padNum 4 c.1 ++ padNum 2 c.2.1 ++ padNum 2 c.2.2 ++ padNum 2 hh ++ padNum 2 mm

/-- Seconds since Go's zero time of a civil UTC instant (for test fixtures). -/
def mkInstant (y mo d hh mm : Nat) : Nat :=
  (daysFromCivil y mo d - 306) * 86400 + hh * 3600 + mm * 60

/-- circuit_breaker.go `DefaultBucket`: the four-tier default set. -/
def DefaultBucket : List Bucket :=
  [NewBucket (4 * hourSec), NewBucket hourSec, NewBucket (5 * minuteSec), NewBucket minuteSec]

/-- circuit_breaker.go `WarningAlertKeyExpiration = time.Hour * 12`. -/
def WarningAlertKeyExpiration : Duration := 12 * hourSec

/-- Go `math.MaxInt` on a 64-bit platform. -/
def maxInt : Int := 2 ^ 63 - 1

/-- The `circuitBreaker` struct of circuit_breaker.go.  The `Cache` handle is
not a field here; each store-touching operation takes the store behaviour as
an explicit argument instead.  `WarningThreshold` is modelled from the spec:
the warning-threshold field, `SetWarningThreshold` and
`IsExceedingWarningThreshold` are absent from src (only their tests and the
README use them); per the spec the warning check is identical to the trip
check but against `warningThreshold`. -/
structure CircuitBreakerState where
  Active : Bool
  Buckets : List Bucket
  CacheTTL : Nat
  FeatureName : String
  Threshold : Int
  WarningThreshold : Int
  TripKey : String
  WarningAlertKey : String
  WindowDuration : Nat
  WindowDurationStr : String
deriving Repr, DecidableEq

/-- One step of the descending insertion used to model
`sort.Slice(buckets, func(i, j) { return buckets[i].Duration > buckets[j].Duration })`:
keep the list sorted by duration from largest to smallest. -/
def insertDesc (b : Bucket) : List Bucket → List Bucket
  | [] => [b]
  | c :: rest => if c.duration < b.duration then b :: c :: rest else c :: insertDesc b rest

/-- The bucket sort of `NewCircuitBreaker` (largest to smallest duration). -/
def sortBucketsDesc (bs : List Bucket) : List Bucket :=
  bs.foldr insertDesc []

/-- circuit_breaker.go `NewCircuitBreaker`: default `Active = true`,
`Threshold = math.MaxInt`, substitute `DefaultBucket` when the supplied
list is empty, sort buckets by descending duration, derive the window
duration string and both flag keys. -/
def NewCircuitBreaker (buckets : List Bucket) (cacheTTL : Duration)
    (featureName : String) (windowDuration : Duration) : CircuitBreakerState :=
  let bs := if buckets.isEmpty then DefaultBucket else buckets
  let wstr := durationShortName windowDuration
  { Active := true
    Buckets := sortBucketsDesc bs
    CacheTTL := cacheTTL
    FeatureName := featureName
    Threshold := maxInt
    WarningThreshold := maxInt
    TripKey := "cb-trip-" ++ featureName ++ "-" ++ wstr
    WarningAlertKey := "cb-warning_alert-" ++ featureName ++ "-" ++ wstr
    WindowDuration := windowDuration
    WindowDurationStr := wstr }

/-- circuit_breaker.go `getTimePointKey`:
`cb-<feature_name>-<window_duration_string>-<bucket>-<timestamp>`. -/
def getTimePointKey (c : CircuitBreakerState) (bucketName : String) (timestamp : Nat) : String :=
  "cb-" ++ c.FeatureName ++ "-" ++ c.WindowDurationStr ++ "-" ++ bucketName ++ "-"
    ++ formatTimePoint timestamp

/-- The inner loop of `GenerateKeys` for one bucket tier: while
`endTime.Add(-d)` is after or equal to `startTime`, step `endTime` back by
`d` and record it.  The first argument is fuel bounding the number of
iterations (the Go loop does not terminate when `d = 0`; with `0 < d` any
fuel above `(endTime - startTime) / d` is enough and the result is the
full run of the loop).  Returns the recorded time points and the final
`endTime`. -/
def tierSteps (startTime d : Nat) : Nat → Nat → List Nat × Nat
  | 0, endTime => ([], endTime)
  | fuel + 1, endTime =>
    if startTime + d ≤ endTime then
      let stepped := tierSteps startTime d fuel (endTime - d)
      ((endTime - d) :: stepped.1, stepped.2)
    else ([], endTime)

/-- One tier of `GenerateKeys`, run with sufficient fuel. -/
def tierPoints (startTime d endTime : Nat) : List Nat × Nat :=
  tierSteps startTime d ((endTime - startTime) / d + 1) endTime

/-- The `for _, bucket := range c.Buckets` walk of `GenerateKeys`, threading
`endTime` across tiers and tagging every recorded time point with its
bucket. -/
def walkBuckets (startTime : Nat) : List Bucket → Nat → List (Bucket × Nat)
  | [], _ => []
  | b :: rest, endTime =>
    let r := tierPoints startTime b.duration endTime
    r.1.map (fun t => (b, t)) ++ walkBuckets startTime rest r.2

/-- The key points produced by `GenerateKeys(currentTime)` as
(bucket, timestamp) pairs: the head key at `currentTime` truncated to the
coarsest bucket, then the stepped keys of every tier down to
`startTime = (currentTime - WindowDuration).Truncate(time.Minute)`.
Indexing `Buckets[0]` in Go would panic on an empty bucket list (impossible
after `NewCircuitBreaker`); the embedding returns `[]` there.  Faithful for
`WindowDuration ≤ currentTime` (Go instants are signed). -/
def generatePoints (c : CircuitBreakerState) (currentTime : Nat) : List (Bucket × Nat) :=
  match c.Buckets with
  | [] => []
  | b0 :: _ =>
    let endTime := truncate currentTime b0.duration
    let startTime := truncate (currentTime - c.WindowDuration) minuteSec
    (b0, endTime) :: walkBuckets startTime c.Buckets endTime

/-- circuit_breaker.go `GenerateKeys`: the key points formatted through
`getTimePointKey`. -/
def GenerateKeys (c : CircuitBreakerState) (currentTime : Nat) : List String :=
  (generatePoints c currentTime).map (fun p => getTimePointKey c p.1.name p.2)

/-- A Go `interface{}` value as the system passes them around: nil, a bool,
an int, a `map[string]int`, or a `map[string]interface{}` (maps modelled as
association lists in insertion order). -/
inductive GoValue where
  | vNil : GoValue
  | vBool : Bool → GoValue
  | vInt : Int → GoValue
  | vMapStringInt : List (String × Int) → GoValue
  | vMapStringIface : List (String × GoValue) → GoValue

/-- The errors the engine distinguishes: `ErrCacheMiss` and any other
store error (carried with its message). -/
inductive GoError where
  | errCacheMiss : GoError
  | errOther : String → GoError
deriving Repr, DecidableEq

/-- The unchecked Go type assertion `results.(map[string]int)`:
succeeds only when the dynamic type is exactly `map[string]int`. -/
def asMapStringInt : GoValue → Option (List (String × Int))
  | .vMapStringInt m => some m
  | _ => none

/-- The unchecked Go type assertion `object.(bool)`. -/
def asBool : GoValue → Option Bool
  | .vBool b => some b
  | _ => none

def isNil : GoValue → Bool
  | .vNil => true
  | _ => false

/-- Go 64-bit `int` overflow: wrap into `[-2^63, 2^63)`. -/
def wrap64 (z : Int) : Int :=
  (z + 2 ^ 63) % 2 ^ 64 - 2 ^ 63

/-- circuit_breaker.go `CalculateWindowValue` with the wall clock (`now`)
and the store's `GetMulti` passed explicitly.  Returns the Go result
(`none` when the unchecked type assertion on `GetMulti`'s return fails and
the call panics) together with the list of `GetMulti` calls issued, so
that theorems can speak about which store reads were performed. -/
def CalculateWindowValue (c : CircuitBreakerState) (getMulti : List String → GoValue)
    (now : Nat) : Option Int × List (List String) :=
  if !c.Active then (some maxInt, [])
  else
    let keys := GenerateKeys c now
    match asMapStringInt (getMulti keys) with
    | none => (none, [keys])
    | some cacheValues =>
      (some (cacheValues.foldl (fun acc kv => wrap64 (acc + kv.2)) 0), [keys])

/-- circuit_breaker.go `IsExceedingThreshold`: `none` propagates a panic of
`CalculateWindowValue`; the addition wraps as Go `int` addition does. -/
def IsExceedingThreshold (c : CircuitBreakerState) (getMulti : List String → GoValue)
    (now : Nat) (amount : Int) : Option Bool :=
  if !c.Active then some false
  else
    match (CalculateWindowValue c getMulti now).1 with
    | none => none
    | some v => some (decide (c.Threshold ≤ wrap64 (v + amount)))

/-- Modelled from the spec: `IsExceedingWarningThreshold` is code of this
repository missing from src (only its tests and the README call it); the
spec says it is identical to `IsExceedingThreshold` but checked against
`warningThreshold`. -/
def IsExceedingWarningThreshold (c : CircuitBreakerState) (getMulti : List String → GoValue)
    (now : Nat) (amount : Int) : Option Bool :=
  if !c.Active then some false
  else
    match (CalculateWindowValue c getMulti now).1 with
    | none => none
    | some v => some (decide (c.WarningThreshold ≤ wrap64 (v + amount)))

/-- circuit_breaker.go `getBoolCache` with the store's `Get` passed
explicitly (`Get` returns a value and an error).  Returns `none` when the
unchecked `object.(bool)` assertion fails and the call panics. -/
def getBoolCache (c : CircuitBreakerState) (get : String → GoValue × Option GoError)
    (cacheKey : String) : Option (Bool × Option GoError) :=
  if !c.Active then some (false, none)
  else
    let r := get cacheKey
    match r.2 with
    | some _ => some (false, some .errCacheMiss)
    | none =>
      match asBool r.1 with
      | none => none
      | some b => some (b, none)

/-- circuit_breaker.go `GetTrip`. -/
def GetTrip (c : CircuitBreakerState) (get : String → GoValue × Option GoError) :
    Option (Bool × Option GoError) :=
  getBoolCache c get c.TripKey

/-- circuit_breaker.go `GetTripWarning`. -/
def GetTripWarning (c : CircuitBreakerState) (get : String → GoValue × Option GoError) :
    Option (Bool × Option GoError) :=
  getBoolCache c get c.WarningAlertKey

/-- circuit_breaker.go `updateBoolCache`, returning the list of `Set`
calls issued as (key, value, ttl) triples.  Note that the source ignores
its `expiration` parameter and always writes with `c.CacheTTL`. -/
def updateBoolCache (c : CircuitBreakerState) (isTripped : Bool) (cacheKey : String)
    (expiration : Duration) : List (String × Bool × Duration) :=
  if !c.Active then []
  else [(cacheKey, isTripped, c.CacheTTL)]

/-- circuit_breaker.go `UpdateTrip`: `updateBoolCache(isTripped, TripKey, 0)`. -/
def UpdateTrip (c : CircuitBreakerState) (isTripped : Bool) :
    List (String × Bool × Duration) :=
  updateBoolCache c isTripped c.TripKey 0

/-- circuit_breaker.go `UpdateTripWarning`:
`updateBoolCache(isTripped, WarningAlertKey, WarningAlertKeyExpiration)`. -/
def UpdateTripWarning (c : CircuitBreakerState) (isTripped : Bool) :
    List (String × Bool × Duration) :=
  updateBoolCache c isTripped c.WarningAlertKey WarningAlertKeyExpiration

/-- The per-tier increments of `UpdateLatestBucketsValue`: try each tier in
order; on the first failing `IncrementInt` return that error and stop,
keeping the calls already made.  Returns the error (if any) and the list of
`IncrementInt` calls issued as (key, amount) pairs. -/
def updateTiers (c : CircuitBreakerState) (incr : String → Int → Int × Option GoError)
    (now : Nat) (amount : Int) : List Bucket → Option GoError × List (String × Int)
  | [] => (none, [])
  | b :: rest =>
    let key := getTimePointKey c b.name (truncate now b.duration)
    match (incr key amount).2 with
    | some e => (some e, [(key, amount)])
    | none =>
      let r := updateTiers c incr now amount rest
      (r.1, (key, amount) :: r.2)

/-- circuit_breaker.go `UpdateLatestBucketsValue` with the wall clock and
the store's `IncrementInt` passed explicitly. -/
def UpdateLatestBucketsValue (c : CircuitBreakerState)
    (incr : String → Int → Int × Option GoError) (now : Nat) (amount : Int) :
    Option GoError × List (String × Int) :=
  if !c.Active then (none, [])
  else updateTiers c incr now amount c.Buckets

/-- circuit_breaker.go `SetActive`. -/
def SetActive (c : CircuitBreakerState) (active : Bool) : CircuitBreakerState :=
  { c with Active := active }

/-- circuit_breaker.go `SetThreshold`. -/
def SetThreshold (c : CircuitBreakerState) (threshold : Int) : CircuitBreakerState :=
  { c with Threshold := threshold }

/-- Modelled from the spec: `SetWarningThreshold` is code of this repository
missing from src (only its tests and the README call it); per the spec it is
the explicit setter of the mutable `warningThreshold` field. -/
def SetWarningThreshold (c : CircuitBreakerState) (w : Int) : CircuitBreakerState :=
  { c with WarningThreshold := w }

/-- cache.go `(*cache).Get` on top of an adapter store mapping keys to
stored values: a missing key surfaces as `(nil, ErrCacheMiss)`, a present
one as `(value, no error)` (both cache implementations in cache.go behave
identically here). -/
def cacheGet (store : String → Option GoValue) (key : String) : GoValue × Option GoError :=
  match store key with
  | none => (.vNil, some .errCacheMiss)
  | some v => (v, none)

/-- cache.go, adapter-backed implementation of `GetMulti`: build a
`map[string]interface{}` holding every requested key whose adapter object
is non-nil.  The dynamic type of the result is `map[string]interface{}`. -/
def cacheGetMulti (store : String → Option GoValue) (keys : List String) : GoValue :=
  .vMapStringIface (keys.foldl
    (fun result key =>
      let object := (store key).getD .vNil
      if isNil object then result else result ++ [(key, object)])
    [])

/-- cache.go, go-cache-backed implementation of `GetMulti`: build a
`map[string]interface{}` holding every requested key (missing ones map to
nil).  The dynamic type of the result is `map[string]interface{}`. -/
def goCacheGetMulti (store : String → Option GoValue) (keys : List String) : GoValue :=
  .vMapStringIface (keys.foldl
    (fun result key => result ++ [(key, (store key).getD .vNil)]) [])

/-- The counter key `UpdateLatestBucketsValue` increments for one tier. -/
def tierKey (c : CircuitBreakerState) (now : Nat) (b : Bucket) : String :=
  getTimePointKey c b.name (truncate now b.duration)

/-- Descending-by-duration order on buckets (the sort order of
`NewCircuitBreaker`). -/
def bucketGE (x y : Bucket) : Prop :=
  y.duration ≤ x.duration

/-- A key-point list `(b₁,t₁), (b₂,t₂), …` is chained below `top` when the
half-open intervals `[tᵢ, tᵢ + bᵢ.duration)` are adjacent back-to-back:
`t₁ + b₁.duration = top`, `t₂ + b₂.duration = t₁`, and so on.  A chained
list tiles `[lastStartBelow top pts, top)` with no gap and no overlap. -/
def chainedBelow (top : Nat) : List (Bucket × Nat) → Bool
  | [] => true
  | (b, t) :: rest => (t + b.duration == top) && chainedBelow t rest

/-- The start of the last interval of a key-point list (`top` when the list
is empty): for a chained list, the lower end of the tiled span. -/
def lastStartBelow (top : Nat) : List (Bucket × Nat) → Nat
  | [] => top
  | (_, t) :: rest => lastStartBelow t rest

/-- The number of finest-resolution slots a key-point list accounts for:
each key at bucket `b` aggregates `b.duration / finest` synthetic unit
counters. -/
def unitCount (finest : Nat) (pts : List (Bucket × Nat)) : Nat :=
  (pts.map (fun p => p.1.duration / finest)).sum

/-- Claim C1: with buckets {4h, 1h, 5m, 1m}, windowDuration = 24h and
featureName "test", `GenerateKeys` at 2023-05-12T10:12:00Z returns exactly
the fixed 19-key sequence: the head key `cb-test-24h-4h-202305120800`,
then five more 4h keys backward in time, one 1h key, nine 5m keys, and
finally three 1m keys ending with `cb-test-24h-1m-202305111012`. -/
theorem generateKeys_fixture_24h :
    GenerateKeys
      (NewCircuitBreaker
        [NewBucket (4 * hourSec), NewBucket hourSec, NewBucket (5 * minuteSec),
          NewBucket minuteSec]
        (24 * hourSec) ("test") (24 * hourSec))
      (mkInstant 2023 5 12 10 12) =
    ["cb-test-24h-4h-202305120800",
     "cb-test-24h-4h-202305120400",
     "cb-test-24h-4h-202305120000",
     "cb-test-24h-4h-202305112000",
     "cb-test-24h-4h-202305111600",
     "cb-test-24h-4h-202305111200",
     "cb-test-24h-1h-202305111100",
     "cb-test-24h-5m-202305111055",
     "cb-test-24h-5m-202305111050",
     "cb-test-24h-5m-202305111045",
     "cb-test-24h-5m-202305111040",
     "cb-test-24h-5m-202305111035",
     "cb-test-24h-5m-202305111030",
     "cb-test-24h-5m-202305111025",
     "cb-test-24h-5m-202305111020",
     "cb-test-24h-5m-202305111015",
     "cb-test-24h-1m-202305111014",
     "cb-test-24h-1m-202305111013",
     "cb-test-24h-1m-202305111012"] := by decide

/-- Claim C4: whenever `active = false`, `CalculateWindowValue` returns
`math.MaxInt` regardless of the store contents and issues no store read
(the list of `GetMulti` calls is empty). -/
theorem calculateWindowValue_inactive (c : CircuitBreakerState)
    (getMulti : List String → GoValue) (now : Nat) (h : c.Active = false) :
    CalculateWindowValue c getMulti now = (some maxInt, []) := by
  simp [CalculateWindowValue, h]

/-- Witness for C4 at a concrete inactive breaker and a nonempty store. -/
theorem calculateWindowValue_inactive_witness :
    CalculateWindowValue
      (SetActive (NewCircuitBreaker [] (24 * hourSec) ("test") (24 * hourSec)) false)
      (fun _ => GoValue.vMapStringInt [("cb-test-4h-202305100800", 50000)])
      (mkInstant 2023 5 12 10 12) = (some maxInt, []) :=
  calculateWindowValue_inactive _ _ _ (by decide)

/-- Claim C6 (code evaluation at the failing input): with `cacheTTL = 24h`,
`UpdateTripWarning(true)` writes the warning flag with TTL `cacheTTL`
(24h), not the fixed 12-hour `WarningAlertKeyExpiration`, because
`updateBoolCache` ignores its `expiration` parameter; the claim (and the
constant the source passes in) say a fixed 12-hour TTL. -/
theorem updateTripWarning_ttl_eval :
    UpdateTripWarning
      (NewCircuitBreaker [NewBucket (4 * hourSec)] (24 * hourSec) ("test") (24 * hourSec))
      true = [("cb-warning_alert-test-24h", true, 24 * hourSec)] ∧
    (24 : Nat) * hourSec ≠ WarningAlertKeyExpiration := by decide

/-- Claim C7: `GetTrip` and `GetTripWarning` return `(false, no error)`
whenever the breaker is inactive; when active, a flag key absent from the
store yields a cache-miss error (distinct from a successful `false`),
and a present key yields its boolean value with no error. -/
theorem getTrip_cacheMiss_spec (c : CircuitBreakerState) (store : String → Option GoValue) :
    (c.Active = false →
      GetTrip c (cacheGet store) = some (false, none) ∧
      GetTripWarning c (cacheGet store) = some (false, none)) ∧
    (c.Active = true →
      (store c.TripKey = none →
        GetTrip c (cacheGet store) = some (false, some .errCacheMiss)) ∧
      (∀ b, store c.TripKey = some (.vBool b) →
        GetTrip c (cacheGet store) = some (b, none)) ∧
      (store c.WarningAlertKey = none →
        GetTripWarning c (cacheGet store) = some (false, some .errCacheMiss)) ∧
      (∀ b, store c.WarningAlertKey = some (.vBool b) →
        GetTripWarning c (cacheGet store) = some (b, none))) := by
  constructor
  · intro h
    constructor <;> simp [GetTrip, GetTripWarning, getBoolCache, h]
  · intro h
    refine ⟨fun hk => ?_, fun b hk => ?_, fun hk => ?_, fun b hk => ?_⟩ <;>
      simp [GetTrip, GetTripWarning, getBoolCache, cacheGet, h, hk, asBool]

/-- Witness for C7: a store holding the trip flag but not the warning flag. -/
theorem getTrip_cacheMiss_witness :
    GetTrip
      (NewCircuitBreaker [] (24 * hourSec) ("test") (24 * hourSec))
      (cacheGet (fun k => if k = "cb-trip-test-24h" then some (GoValue.vBool true) else none)) =
      some (true, none) ∧
    GetTripWarning
      (NewCircuitBreaker [] (24 * hourSec) ("test") (24 * hourSec))
      (cacheGet (fun k => if k = "cb-trip-test-24h" then some (GoValue.vBool true) else none)) =
      some (false, some .errCacheMiss) := by
  have h := getTrip_cacheMiss_spec
    (NewCircuitBreaker [] (24 * hourSec) ("test") (24 * hourSec))
    (fun k => if k = "cb-trip-test-24h" then some (GoValue.vBool true) else none)
  exact ⟨(h.2 (by decide)).2.1 true rfl, (h.2 (by decide)).2.2.1 rfl⟩

/-- Claim C10: when active, `CalculateWindowValue` is defined (does not
panic) exactly when the store's `GetMulti` returns a value whose dynamic
type is `map[string]int`; with either cache implementation of this
repository, whose `GetMulti` builds a `map[string]interface{}`, the
unchecked type assertion fails and the call panics (result `none`). -/
theorem calculateWindowValue_type_assertion (c : CircuitBreakerState)
    (store : String → Option GoValue) (now : Nat) (h : c.Active = true) :
    (CalculateWindowValue c (cacheGetMulti store) now).1 = none ∧
    (CalculateWindowValue c (goCacheGetMulti store) now).1 = none ∧
    (∀ getMulti : List String → GoValue,
      ((CalculateWindowValue c getMulti now).1.isSome ↔
        (asMapStringInt (getMulti (GenerateKeys c now))).isSome)) := by
  refine ⟨?_, ?_, fun getMulti => ?_⟩
  · simp [CalculateWindowValue, h, cacheGetMulti, asMapStringInt]
  · simp [CalculateWindowValue, h, goCacheGetMulti, asMapStringInt]
  · simp only [CalculateWindowValue, h, Bool.not_true, if_neg]
    cases hm : asMapStringInt (getMulti (GenerateKeys c now)) <;> simp [hm]

/-- Witness for C10 at a concrete active breaker and a concrete store. -/
theorem calculateWindowValue_type_assertion_witness :
    (CalculateWindowValue
      (NewCircuitBreaker [] (24 * hourSec) ("test") (24 * hourSec))
      (cacheGetMulti (fun _ => some (GoValue.vInt 5)))
      (mkInstant 2023 5 12 10 12)).1 = none :=
  (calculateWindowValue_type_assertion
    (NewCircuitBreaker [] (24 * hourSec) ("test") (24 * hourSec))
    (fun _ => some (GoValue.vInt 5))
    (mkInstant 2023 5 12 10 12) (by decide)).1

/-- Claim C5: for every amount, an inactive breaker answers `false` to both
threshold checks; an active one answers `true` exactly when the window
value plus the amount reaches the threshold, with equality counting as
exceeding, and the warning check behaves identically against
`warningThreshold`. -/
theorem isExceedingThreshold_spec (c : CircuitBreakerState)
    (getMulti : List String → GoValue) (now : Nat) (amount : Int) :
    (c.Active = false →
      IsExceedingThreshold c getMulti now amount = some false ∧
      IsExceedingWarningThreshold c getMulti now amount = some false) ∧
    (c.Active = true → ∀ v, (CalculateWindowValue c getMulti now).1 = some v →
      (IsExceedingThreshold c getMulti now amount = some true ↔
        c.Threshold ≤ wrap64 (v + amount)) ∧
      (IsExceedingWarningThreshold c getMulti now amount = some true ↔
        c.WarningThreshold ≤ wrap64 (v + amount))) := by
  constructor
  · intro h
    constructor <;> simp [IsExceedingThreshold, IsExceedingWarningThreshold, h]
  · intro h v hv
    constructor <;>
      simp [IsExceedingThreshold, IsExceedingWarningThreshold, h, hv, decide_eq_true_iff]

/-- Witness for C5: threshold 100, window value 60, amount 40 — the
inclusive boundary counts as exceeding, on both checks. -/
theorem isExceedingThreshold_witness :
    IsExceedingThreshold
      (SetThreshold (SetWarningThreshold
        (NewCircuitBreaker [] (24 * hourSec) ("test") (24 * hourSec)) 100) 100)
      (fun _ => GoValue.vMapStringInt [("k", 60)]) (mkInstant 2023 5 12 10 12) 40 =
      some true ∧
    IsExceedingWarningThreshold
      (SetThreshold (SetWarningThreshold
        (NewCircuitBreaker [] (24 * hourSec) ("test") (24 * hourSec)) 100) 100)
      (fun _ => GoValue.vMapStringInt [("k", 60)]) (mkInstant 2023 5 12 10 12) 40 =
      some true := by
  have h := (isExceedingThreshold_spec
    (SetThreshold (SetWarningThreshold
      (NewCircuitBreaker [] (24 * hourSec) ("test") (24 * hourSec)) 100) 100)
    (fun _ => GoValue.vMapStringInt [("k", 60)]) (mkInstant 2023 5 12 10 12) 40).2
    (by decide) 60 (by decide)
  exact ⟨h.1.mpr (by decide), h.2.mpr (by decide)⟩

/-- `updateTiers` when every tier's increment succeeds: one increment per
tier, in tier order. -/
theorem updateTiers_all_ok (c : CircuitBreakerState)
    (incr : String → Int → Int × Option GoError) (now : Nat) (amount : Int) :
    ∀ bs : List Bucket, (∀ b ∈ bs, (incr (tierKey c now b) amount).2 = none) →
      updateTiers c incr now amount bs =
        (none, bs.map (fun b => (tierKey c now b, amount))) := by
  intro bs
  induction bs with
  | nil => intro _; rfl
  | cons b rest ih =>
    intro h
    have hb := h b (List.mem_cons_self b rest)
    have hrest := ih (fun x hx => h x (List.mem_cons_of_mem b hx))
    simp [updateTiers, tierKey] at hb ⊢
    rw [hb, hrest]
    rfl

/-- `updateTiers` when tier `i` is the first failing increment (every tier
before `i` succeeds): the error is returned and exactly the tiers up to and
including `i` were attempted. -/
theorem updateTiers_first_fail (c : CircuitBreakerState)
    (incr : String → Int → Int × Option GoError) (now : Nat) (amount : Int) :
    ∀ (bs : List Bucket) (i : Nat) (hi : i < bs.length) (e : GoError),
      (∀ b ∈ bs.take i, (incr (tierKey c now b) amount).2 = none) →
      (incr (tierKey c now (bs.get ⟨i, hi⟩)) amount).2 = some e →
      updateTiers c incr now amount bs =
        (some e, (bs.take (i + 1)).map (fun b => (tierKey c now b, amount))) := by
  intro bs
  induction bs with
  | nil => intro i hi; exact absurd hi (by simp)
  | cons b rest ih =>
    intro i hi e hok hfail
    cases i with
    | zero =>
      simp only [List.get] at hfail
      simp [updateTiers, tierKey] at hfail ⊢
      rw [hfail]
    | succ i2 =>
      have hb : (incr (tierKey c now b) amount).2 = none :=
        hok b (by simp [List.take_succ_cons])
      have hrest := ih i2 (Nat.lt_of_succ_lt_succ hi) e
        (fun x hx => hok x (by simp [List.take_succ_cons, hx])) hfail
      simp [updateTiers, tierKey] at hb ⊢
      rw [hb, hrest]
      simp [List.map_take, tierKey]

/-- Claim C8: `UpdateLatestBucketsValue` succeeds without any store write
when inactive; when active it issues exactly one increment per configured
bucket tier in tier order, and on the first failing increment it returns
that error, performing no increments on later tiers while keeping the
increments already issued on earlier tiers. -/
theorem updateLatestBucketsValue_spec (c : CircuitBreakerState)
    (incr : String → Int → Int × Option GoError) (now : Nat) (amount : Int) :
    (c.Active = false → UpdateLatestBucketsValue c incr now amount = (none, [])) ∧
    (c.Active = true →
      ((∀ b ∈ c.Buckets, (incr (tierKey c now b) amount).2 = none) →
        UpdateLatestBucketsValue c incr now amount =
          (none, c.Buckets.map (fun b => (tierKey c now b, amount)))) ∧
      (∀ (i : Nat) (hi : i < c.Buckets.length) (e : GoError),
        (∀ b ∈ c.Buckets.take i, (incr (tierKey c now b) amount).2 = none) →
        (incr (tierKey c now (c.Buckets.get ⟨i, hi⟩)) amount).2 = some e →
        UpdateLatestBucketsValue c incr now amount =
          (some e, (c.Buckets.take (i + 1)).map (fun b => (tierKey c now b, amount))))) := by
  constructor
  · intro h
    simp [UpdateLatestBucketsValue, h]
  · intro h
    constructor
    · intro hok
      simp only [UpdateLatestBucketsValue, h, Bool.not_true, if_neg]
      exact updateTiers_all_ok c incr now amount c.Buckets hok
    · intro i hi e hok hfail
      simp only [UpdateLatestBucketsValue, h, Bool.not_true, if_neg]
      exact updateTiers_first_fail c incr now amount c.Buckets i hi e hok hfail

/-- Witness for C8: two tiers (4h, 1h); the increment on the 1h tier fails,
the 4h increment before it stays issued, and the error surfaces. -/
theorem updateLatestBucketsValue_witness :
    UpdateLatestBucketsValue
      (NewCircuitBreaker [NewBucket (4 * hourSec), NewBucket hourSec]
        (24 * hourSec) ("test") (24 * hourSec))
      (fun k v =>
        if k = "cb-test-24h-1h-202305121000" then (0, some (GoError.errOther "some error"))
        else (v, none))
      (mkInstant 2023 5 12 10 12) 100 =
    (some (GoError.errOther "some error"),
      [("cb-test-24h-4h-202305120800", 100), ("cb-test-24h-1h-202305121000", 100)]) := by
  have h := ((updateLatestBucketsValue_spec
    (NewCircuitBreaker [NewBucket (4 * hourSec), NewBucket hourSec]
      (24 * hourSec) ("test") (24 * hourSec))
    (fun k v =>
      if k = "cb-test-24h-1h-202305121000" then (0, some (GoError.errOther "some error"))
      else (v, none))
    (mkInstant 2023 5 12 10 12) 100).2 (by decide)).2 1 (by decide)
    (GoError.errOther "some error") (by decide) (by decide)
  exact h.trans (by decide)

/-- Every element of `insertDesc b l` is `b` or an element of `l`. -/
theorem mem_insertDesc {x b : Bucket} :
    ∀ {l : List Bucket}, x ∈ insertDesc b l → x = b ∨ x ∈ l := by
  intro l
  induction l with
  | nil => simp [insertDesc]
  | cons c rest ih =>
    simp only [insertDesc]
    by_cases hcb : c.duration < b.duration
    · simp only [hcb, if_true, List.mem_cons]
      exact fun h => h
    · simp only [hcb, if_false, List.mem_cons]
      rintro (hx | hx)
      · exact Or.inr (Or.inl hx)
      · rcases ih hx with h1 | h1
        · exact Or.inl h1
        · exact Or.inr (Or.inr h1)

/-- `insertDesc` preserves descending-by-duration sortedness. -/
theorem pairwise_insertDesc {b : Bucket} :
    ∀ {l : List Bucket}, l.Pairwise bucketGE → (insertDesc b l).Pairwise bucketGE := by
  intro l
  induction l with
  | nil => intro _; simp [insertDesc, bucketGE]
  | cons c rest ih =>
    intro h
    rw [List.pairwise_cons] at h
    simp only [insertDesc]
    by_cases hcb : c.duration < b.duration
    · simp only [hcb, if_true]
      rw [List.pairwise_cons]
      refine ⟨?_, List.pairwise_cons.mpr h⟩
      intro y hy
      rcases List.mem_cons.mp hy with hy1 | hy1
      · subst hy1; exact Nat.le_of_lt hcb
      · exact Nat.le_trans (h.1 y hy1) (Nat.le_of_lt hcb)
    · simp only [hcb, if_false]
      rw [List.pairwise_cons]
      refine ⟨?_, ih h.2⟩
      intro y hy
      rcases mem_insertDesc hy with hy1 | hy1
      · subst hy1; exact Nat.le_of_not_lt hcb
      · exact h.1 y hy1

/-- The bucket sort of `NewCircuitBreaker` yields a descending list. -/
theorem sortBucketsDesc_pairwise (l : List Bucket) :
    (sortBucketsDesc l).Pairwise bucketGE := by
  induction l with
  | nil => simp [sortBucketsDesc]
  | cons a l ih => exact pairwise_insertDesc ih

/-- `insertDesc` grows the list by one. -/
theorem length_insertDesc (b : Bucket) :
    ∀ l : List Bucket, (insertDesc b l).length = l.length + 1 := by
  intro l
  induction l with
  | nil => rfl
  | cons c rest ih =>
    simp only [insertDesc]
    by_cases hcb : c.duration < b.duration <;> simp [hcb, ih]

/-- The bucket sort preserves length. -/
theorem sortBucketsDesc_length (l : List Bucket) :
    (sortBucketsDesc l).length = l.length := by
  induction l with
  | nil => rfl
  | cons a l ih =>
    show (insertDesc a (sortBucketsDesc l)).length = l.length + 1
    rw [length_insertDesc, ih]

/-- Claim C9: after construction the bucket sequence is non-empty and
sorted in descending order of duration; an empty supplied list is replaced
by the default four-tier set (4h, 1h, 5m, 1m); and no subsequent operation
(the setters are the only state-modifying operations) changes the bucket
list. -/
theorem buckets_invariant (buckets : List Bucket) (cacheTTL : Duration)
    (featureName : String) (windowDuration : Duration) :
    (NewCircuitBreaker buckets cacheTTL featureName windowDuration).Buckets ≠ [] ∧
    (NewCircuitBreaker buckets cacheTTL featureName windowDuration).Buckets.Pairwise bucketGE ∧
    (buckets = [] →
      (NewCircuitBreaker buckets cacheTTL featureName windowDuration).Buckets = DefaultBucket) ∧
    (∀ (s : CircuitBreakerState) (a : Bool) (t w : Int),
      (SetActive s a).Buckets = s.Buckets ∧
      (SetThreshold s t).Buckets = s.Buckets ∧
      (SetWarningThreshold s w).Buckets = s.Buckets) := by
  refine ⟨?_, sortBucketsDesc_pairwise _, ?_, fun s a t w => ⟨rfl, rfl, rfl⟩⟩
  · have hlen : (NewCircuitBreaker buckets cacheTTL featureName windowDuration).Buckets.length =
        (if buckets.isEmpty then DefaultBucket else buckets).length :=
      sortBucketsDesc_length _
    intro hnil
    rw [hnil] at hlen
    cases buckets with
    | nil => simp [DefaultBucket] at hlen
    | cons b rest => simp at hlen
  · intro hb
    subst hb
    show sortBucketsDesc (if ([] : List Bucket).isEmpty then DefaultBucket else []) = DefaultBucket
    decide

/-- Witness for C9 with an empty supplied bucket list. -/
theorem buckets_invariant_witness :
    (NewCircuitBreaker [] (24 * hourSec) ("test") (24 * hourSec)).Buckets ≠ [] ∧
    (NewCircuitBreaker [] (24 * hourSec) ("test") (24 * hourSec)).Buckets = DefaultBucket := by
  have h := buckets_invariant [] (24 * hourSec) ("test") (24 * hourSec)
  exact ⟨h.1, h.2.2.1 rfl⟩

/-- `truncate` with positive resolution subtracts the remainder. -/
theorem truncate_eq_sub_mod (t d : Nat) (hd : 0 < d) : truncate t d = t - t % d := by
  have hmod := Nat.div_add_mod t d
  simp only [truncate, Nat.pos_iff_ne_zero.mp hd, if_false]
  omega

/-- `truncate` never moves an instant forward. -/
theorem truncate_le (t d : Nat) : truncate t d ≤ t := by
  unfold truncate
  split
  · exact Nat.le_refl t
  · exact Nat.le_trans (Nat.le_of_eq (Nat.mul_comm d (t / d))) (Nat.div_mul_le_self t d)

/-- A truncated instant is a multiple of the resolution. -/
theorem dvd_truncate (t d : Nat) (hd : 0 < d) : d ∣ truncate t d := by
  simp only [truncate, Nat.pos_iff_ne_zero.mp hd, if_false]
  exact Dvd.intro (t / d) rfl

/-- An instant sits strictly below its truncation plus the resolution. -/
theorem lt_truncate_add (t d : Nat) (hd : 0 < d) : t < truncate t d + d := by
  rw [truncate_eq_sub_mod t d hd]
  have := Nat.mod_lt t hd
  omega

/-- Unfolding `tierSteps` when the loop guard fails. -/
theorem tierSteps_stop (s d e fuel : Nat) (h : ¬ s + d ≤ e) :
    tierSteps s d (fuel + 1) e = ([], e) := by
  simp [tierSteps, h]

/-- Unfolding `tierSteps` when the loop guard holds. -/
theorem tierSteps_step (s d e fuel : Nat) (h : s + d ≤ e) :
    tierSteps s d (fuel + 1) e =
      ((e - d) :: (tierSteps s d fuel (e - d)).1, (tierSteps s d fuel (e - d)).2) := by
  simp [tierSteps, h]

/-- The final `endTime` of a tier plus its steps accounts for the whole
distance walked: `endTime' + d * steps = endTime`. -/
theorem tierSteps_sum (s d : Nat) :
    ∀ fuel e, (tierSteps s d fuel e).2 + d * (tierSteps s d fuel e).1.length = e := by
  intro fuel
  induction fuel with
  | zero => intro e; simp [tierSteps]
  | succ fuel ih =>
    intro e
    by_cases h : s + d ≤ e
    · rw [tierSteps_step s d e fuel h]
      have hih := ih (e - d)
      simp only [List.length_cons]
      have hmul : d * ((tierSteps s d fuel (e - d)).1.length + 1) =
          d * (tierSteps s d fuel (e - d)).1.length + d := by ring
      omega
    · rw [tierSteps_stop s d e fuel h]
      simp

/-- A tier never walks `endTime` below `startTime`. -/
theorem tierSteps_lower (s d : Nat) :
    ∀ fuel e, s ≤ e → s ≤ (tierSteps s d fuel e).2 := by
  intro fuel
  induction fuel with
  | zero => intro e he; simpa [tierSteps] using he
  | succ fuel ih =>
    intro e he
    by_cases h : s + d ≤ e
    · rw [tierSteps_step s d e fuel h]
      exact ih (e - d) (by omega)
    · rw [tierSteps_stop s d e fuel h]
      exact he

/-- With enough fuel the tier loop runs to completion: one more step would
undershoot `startTime`. -/
theorem tierSteps_term (s d : Nat) (hd : 0 < d) :
    ∀ fuel e, e - s < d * fuel → (tierSteps s d fuel e).2 < s + d := by
  intro fuel
  induction fuel with
  | zero => intro e he; omega
  | succ fuel ih =>
    intro e he
    by_cases h : s + d ≤ e
    · rw [tierSteps_step s d e fuel h]
      refine ih (e - d) ?_
      have hmul : d * (fuel + 1) = d * fuel + d := by ring
      omega
    · rw [tierSteps_stop s d e fuel h]
      omega

/-- Any number is below its divisor times the successor of the quotient
(the fuel bound used by `tierPoints`). -/
theorem lt_mul_div_succ (a b : Nat) (hb : 0 < b) : a < b * (a / b + 1) := by
  have h1 := Nat.div_add_mod a b
  have h2 := Nat.mod_lt a hb
  have h3 : b * (a / b + 1) = b * (a / b) + b := by ring
  omega

/-- The steps of one tier are chained: each interval of width `d` abuts the
previous one, starting right below `endTime`. -/
theorem tierSteps_chain (s d : Nat) (b : Bucket) (hb : b.duration = d) :
    ∀ fuel e, chainedBelow e ((tierSteps s d fuel e).1.map (fun t => (b, t))) = true ∧
      lastStartBelow e ((tierSteps s d fuel e).1.map (fun t => (b, t))) =
        (tierSteps s d fuel e).2 := by
  intro fuel
  induction fuel with
  | zero => intro e; simp [tierSteps, chainedBelow, lastStartBelow]
  | succ fuel ih =>
    intro e
    by_cases h : s + d ≤ e
    · rw [tierSteps_step s d e fuel h]
      have hih := ih (e - d)
      simp only [List.map_cons, chainedBelow, lastStartBelow]
      refine ⟨?_, hih.2⟩
      rw [hih.1, hb]
      simp
      omega
    · rw [tierSteps_stop s d e fuel h]
      simp [chainedBelow, lastStartBelow]

/-- `chainedBelow` across an append: the second part chains below the last
start of the first. -/
theorem chainedBelow_append (xs ys : List (Bucket × Nat)) :
    ∀ top, chainedBelow top (xs ++ ys) =
      (chainedBelow top xs && chainedBelow (lastStartBelow top xs) ys) := by
  induction xs with
  | nil => intro top; simp [chainedBelow, lastStartBelow]
  | cons p rest ih =>
    intro top
    obtain ⟨b, t⟩ := p
    simp only [List.cons_append, chainedBelow, lastStartBelow]
    rw [show rest.append ys = rest ++ ys from rfl, ih t, Bool.and_assoc]

/-- `lastStartBelow` across an append. -/
theorem lastStartBelow_append (xs ys : List (Bucket × Nat)) :
    ∀ top, lastStartBelow top (xs ++ ys) = lastStartBelow (lastStartBelow top xs) ys := by
  induction xs with
  | nil => intro top; simp [lastStartBelow]
  | cons p rest ih =>
    intro top
    obtain ⟨b, t⟩ := p
    simp only [List.cons_append, lastStartBelow]
    rw [show rest.append ys = rest ++ ys from rfl, ih t]

/-- A chained list tiles exactly the span from its last start to `top`:
the durations sum to the covered span. -/
theorem chained_sum (pts : List (Bucket × Nat)) :
    ∀ top, chainedBelow top pts = true →
      lastStartBelow top pts + (pts.map (fun p => p.1.duration)).sum = top := by
  induction pts with
  | nil => intro top _; simp [lastStartBelow]
  | cons p rest ih =>
    intro top hch
    obtain ⟨b, t⟩ := p
    simp only [chainedBelow, Bool.and_eq_true, beq_iff_eq] at hch
    have hr := ih t hch.2
    simp only [lastStartBelow, List.map_cons, List.sum_cons]
    omega

/-- A chained list covers every instant between its last start and `top`. -/
theorem chained_cover (pts : List (Bucket × Nat)) :
    ∀ top x, chainedBelow top pts = true → lastStartBelow top pts ≤ x → x < top →
      ∃ p ∈ pts, p.2 ≤ x ∧ x < p.2 + p.1.duration := by
  induction pts with
  | nil =>
    intro top x _ hlo hhi
    simp only [lastStartBelow] at hlo
    omega
  | cons p rest ih =>
    intro top x hch hlo hhi
    obtain ⟨b, t⟩ := p
    simp only [chainedBelow, Bool.and_eq_true, beq_iff_eq] at hch
    simp only [lastStartBelow] at hlo
    by_cases ht : t ≤ x
    · exact ⟨(b, t), List.mem_cons_self _ _, ht, by show x < t + b.duration; omega⟩
    · obtain ⟨q, hq, hq1, hq2⟩ := ih t x hch.2 hlo (by omega)
      exact ⟨q, List.mem_cons_of_mem _ hq, hq1, hq2⟩

/-- Every key point produced by the bucket walk carries one of the walked
buckets. -/
theorem walkBuckets_mem (s : Nat) :
    ∀ (bs : List Bucket) (e : Nat) (p : Bucket × Nat),
      p ∈ walkBuckets s bs e → p.1 ∈ bs := by
  intro bs
  induction bs with
  | nil => intro e p hp; simp [walkBuckets] at hp
  | cons b rest ih =>
    intro e p hp
    simp only [walkBuckets, List.mem_append, List.mem_map] at hp
    rcases hp with ⟨t, _, hpt⟩ | hp
    · rw [← hpt]
      exact List.mem_cons_self b rest
    · exact List.mem_cons_of_mem b (ih _ p hp)

/-- The steps of one tier (with its built-in fuel) are chained, ending at
the final `endTime`. -/
theorem tierPoints_chain (s d : Nat) (b : Bucket) (hb : b.duration = d) (e : Nat) :
    chainedBelow e ((tierPoints s d e).1.map (fun t => (b, t))) = true ∧
      lastStartBelow e ((tierPoints s d e).1.map (fun t => (b, t))) =
        (tierPoints s d e).2 :=
  tierSteps_chain s d b hb ((e - s) / d + 1) e

/-- One tier never walks `endTime` below `startTime`. -/
theorem tierPoints_lower (s d e : Nat) (he : s ≤ e) : s ≤ (tierPoints s d e).2 :=
  tierSteps_lower s d ((e - s) / d + 1) e he

/-- One tier (with its built-in fuel) runs its loop to completion. -/
theorem tierPoints_term (s d : Nat) (hd : 0 < d) (e : Nat) :
    (tierPoints s d e).2 < s + d :=
  tierSteps_term s d hd ((e - s) / d + 1) e (lt_mul_div_succ (e - s) d hd)

/-- One tier's steps account for the distance from its final `endTime` up
to its starting `endTime`. -/
theorem tierPoints_sum (s d e : Nat) :
    (tierPoints s d e).2 + d * (tierPoints s d e).1.length = e :=
  tierSteps_sum s d ((e - s) / d + 1) e

/-- The bucket walk is chained below its starting `endTime` and never walks
below `startTime`. -/
theorem walkBuckets_chain (s : Nat) :
    ∀ (bs : List Bucket) (e : Nat), s ≤ e →
      chainedBelow e (walkBuckets s bs e) = true ∧
      s ≤ lastStartBelow e (walkBuckets s bs e) := by
  intro bs
  induction bs with
  | nil => intro e he; simpa [walkBuckets, chainedBelow, lastStartBelow] using he
  | cons b rest ih =>
    intro e he
    have htier := tierPoints_chain s b.duration b rfl e
    have hlow := tierPoints_lower s b.duration e he
    have hih := ih (tierPoints s b.duration e).2 hlow
    constructor
    · rw [walkBuckets, chainedBelow_append, htier.1, htier.2, hih.1]
      rfl
    · rw [walkBuckets, lastStartBelow_append, htier.2]
      exact hih.2

/-- After the walk's final tier (of duration `blast.duration`), stepping
once more would undershoot `startTime`: the final start lies within one
finest step of it. -/
theorem walkBuckets_last (s : Nat) :
    ∀ (bs : List Bucket) (e : Nat) (blast : Bucket), s ≤ e →
      bs.getLast? = some blast → 0 < blast.duration →
      lastStartBelow e (walkBuckets s bs e) < s + blast.duration := by
  intro bs
  induction bs with
  | nil => intro e blast _ h; simp at h
  | cons b rest ih =>
    intro e blast he hlast hpos
    have htier := tierPoints_chain s b.duration b rfl e
    have hlow := tierPoints_lower s b.duration e he
    rw [walkBuckets, lastStartBelow_append, htier.2]
    cases rest with
    | nil =>
      have hb : b = blast := by
        simpa using hlast
      subst hb
      simp only [walkBuckets, lastStartBelow]
      exact tierPoints_term s b.duration hpos e
    | cons b2 rest2 =>
      have hlast2 : (b2 :: rest2).getLast? = some blast := by
        rwa [List.getLast?_cons_cons] at hlast
      exact ih _ blast hlow hlast2 hpos

/-- Counterexample to claim C3 as stated: with the single tier 24h and
windowDuration = 24h, at `now` = 2023-05-12T10:12:00Z (an instant not on
the bucket boundary) `GenerateKeys` returns only the head key — one key,
not two. -/
theorem generateKeys_single_tier_counterexample :
    GenerateKeys
      (NewCircuitBreaker [NewBucket (24 * hourSec)] (24 * hourSec) ("test") (24 * hourSec))
      (mkInstant 2023 5 12 10 12) = ["cb-test-24h-24h-202305120000"] ∧
    (GenerateKeys
      (NewCircuitBreaker [NewBucket (24 * hourSec)] (24 * hourSec) ("test") (24 * hourSec))
      (mkInstant 2023 5 12 10 12)).length ≠ 2 := by decide

/-- Claim C3 as amended: with exactly one bucket tier of duration `d` (a
positive whole number of minutes) and windowDuration = `d ≤ now`,
`GenerateKeys(now)` yields 2 keys — the head key plus one key at exactly
`startTime`'s boundary — precisely when `now` lies within the first minute
after a bucket boundary (`now % d < 1 minute`, e.g. at the boundary
itself); at every other instant it yields only the head key. -/
theorem generateKeys_single_tier_amended (featureName : String)
    (cacheTTL d now : Nat) (hd : 0 < d) (hdvd : 60 ∣ d) (hnow : d ≤ now) :
    generatePoints (NewCircuitBreaker [NewBucket d] cacheTTL featureName d) now =
      (if now % d < 60 then
        [(NewBucket d, truncate now d), (NewBucket d, truncate (now - d) 60)]
      else [(NewBucket d, truncate now d)]) ∧
    (now % d < 60 → truncate (now - d) 60 = truncate now d - d) ∧
    (GenerateKeys (NewCircuitBreaker [NewBucket d] cacheTTL featureName d) now).length =
      (if now % d < 60 then 2 else 1) := by
  have hE0 : truncate now d = now - now % d := truncate_eq_sub_mod now d hd
  have hs : truncate (now - d) 60 = (now - d) - (now - d) % 60 :=
    truncate_eq_sub_mod (now - d) 60 (by norm_num)
  have hmodnd : (now - d) % 60 = now % 60 := by
    obtain ⟨k, hk⟩ := hdvd
    have h1 : now - d + 60 * k = now := by omega
    have h2 := Nat.add_mul_mod_self_left (now - d) 60 k
    rw [h1] at h2
    omega
  have hmm60 : now % d % 60 = now % 60 := Nat.mod_mod_of_dvd now hdvd
  have hmlt : now % d < d := Nat.mod_lt now hd
  have hmle : now % d ≤ now := Nat.mod_le now d
  have h60lt : now % 60 < 60 := Nat.mod_lt now (by norm_num)
  have h60led : now % 60 ≤ now - d := by
    rw [← hmodnd]
    exact Nat.mod_le (now - d) 60
  have hdstep : d ≤ now - now % d := by
    have hq : 1 ≤ now / d := (Nat.one_le_div_iff hd).mpr hnow
    have hdm := Nat.div_add_mod now d
    have hP : d * 1 ≤ d * (now / d) := Nat.mul_le_mul_left d hq
    omega
  have heq : generatePoints (NewCircuitBreaker [NewBucket d] cacheTTL featureName d) now =
      (NewBucket d, truncate now d) ::
        ((tierPoints (truncate (now - d) 60) d (truncate now d)).1.map
          (fun t => (NewBucket d, t)) ++ []) := rfl
  by_cases hc : now % d < 60
  · have hc60 : now % 60 = now % d := by omega
    have hcond1 : truncate (now - d) 60 + d ≤ truncate now d := by omega
    have hEds : truncate now d - d = truncate (now - d) 60 := by omega
    have hE0s : truncate now d - truncate (now - d) 60 = d := by omega
    have hdiv1 : (truncate now d - truncate (now - d) 60) / d = 1 := by
      rw [hE0s]
      exact Nat.div_self hd
    have hcond2 : ¬ (truncate (now - d) 60 + d ≤ truncate now d - d) := by omega
    have hinner : tierSteps (truncate (now - d) 60) d 1 (truncate now d - d) =
        ([], truncate now d - d) :=
      tierSteps_stop (truncate (now - d) 60) d (truncate now d - d) 0 hcond2
    have hTP : tierPoints (truncate (now - d) 60) d (truncate now d) =
        ([truncate (now - d) 60], truncate (now - d) 60) := by
      unfold tierPoints
      rw [hdiv1, tierSteps_step (truncate (now - d) 60) d (truncate now d) 1 hcond1,
        hinner, hEds]
    refine ⟨?_, fun _ => hEds.symm, ?_⟩
    · rw [heq, hTP, if_pos hc]
      simp
    · rw [GenerateKeys, heq, hTP, if_pos hc]
      simp
  · have hc60 : now % 60 < now % d := by omega
    have hcond : ¬ (truncate (now - d) 60 + d ≤ truncate now d) := by omega
    have hTP : tierPoints (truncate (now - d) 60) d (truncate now d) =
        ([], truncate now d) :=
      tierSteps_stop (truncate (now - d) 60) d (truncate now d)
        ((truncate now d - truncate (now - d) 60) / d) hcond
    refine ⟨?_, fun hcc => absurd hcc hc, ?_⟩
    · rw [heq, hTP, if_neg hc]
      simp
    · rw [GenerateKeys, heq, hTP, if_neg hc]
      simp

/-- Witness for the amended C3 at the boundary instant 2023-05-12T00:00:00Z
(within the first minute of the 24h bucket period, so 2 keys). -/
theorem generateKeys_single_tier_amended_witness :
    (GenerateKeys (NewCircuitBreaker [NewBucket 86400] 86400 ("test") 86400)
      (mkInstant 2023 5 12 0 0)).length =
      (if mkInstant 2023 5 12 0 0 % 86400 < 60 then 2 else 1) :=
  (generateKeys_single_tier_amended ("test") 86400 86400 (mkInstant 2023 5 12 0 0)
    (by decide) (by decide) (by decide)).2.2

/-- When every key's bucket duration is a whole number of minutes, the
unit count is the total covered duration in minutes. -/
theorem unitCount_mul (pts : List (Bucket × Nat)) (h : ∀ p ∈ pts, 60 ∣ p.1.duration) :
    60 * unitCount 60 pts = (pts.map (fun p => p.1.duration)).sum := by
  induction pts with
  | nil => simp [unitCount]
  | cons p rest ih =>
    have hp := h p (List.mem_cons_self p rest)
    have hrest := ih (fun q hq => h q (List.mem_cons_of_mem p hq))
    simp only [unitCount, List.map_cons, List.sum_cons] at hrest ⊢
    rw [Nat.mul_add, hrest, Nat.mul_div_cancel' hp]

/-- Claim C2: for every instant `now`, under bucket tiers whose durations
are positive whole numbers of minutes with a one-minute finest tier at
least as fine as the window, the key points of `GenerateKeys(now)` tile
`[now - windowDuration, now]` without gaps: they are chained back-to-back
from the head key's upper boundary down to exactly
`startTime = truncate(now - windowDuration, 1min)`, every instant of the
window is covered by some key's interval, and summing synthetic unit
counters (one per finest slot) over all keys yields
`windowDuration / finestBucketDuration`, the head key accounting for the
slots from its timestamp up to `now` (the head-key aggregation rule). -/
theorem generateKeys_tiles_window (c : CircuitBreakerState) (now : Nat)
    (b0 : Bucket) (rest : List Bucket) (blast : Bucket)
    (hb : c.Buckets = b0 :: rest)
    (hlast : c.Buckets.getLast? = some blast)
    (hlast60 : blast.duration = 60)
    (hpos : ∀ b ∈ c.Buckets, 0 < b.duration)
    (hdvd : ∀ b ∈ c.Buckets, 60 ∣ b.duration)
    (hwin : b0.duration ≤ c.WindowDuration)
    (hwdvd : 60 ∣ c.WindowDuration)
    (hnow : c.WindowDuration ≤ now) :
    chainedBelow (truncate now b0.duration + b0.duration) (generatePoints c now) = true ∧
    lastStartBelow (truncate now b0.duration + b0.duration) (generatePoints c now) =
      truncate (now - c.WindowDuration) 60 ∧
    (∀ x, now - c.WindowDuration ≤ x → x ≤ now →
      ∃ p ∈ generatePoints c now, p.2 ≤ x ∧ x < p.2 + p.1.duration) ∧
    unitCount 60 ((generatePoints c now).drop 1) +
      (truncate now 60 - truncate now b0.duration) / 60 = c.WindowDuration / 60 ∧
    GenerateKeys c now =
      (generatePoints c now).map (fun p => getTimePointKey c p.1.name p.2) := by
  rw [hb] at hlast hpos hdvd
  have h0pos : 0 < b0.duration := hpos b0 (List.mem_cons_self b0 rest)
  have h0dvd : 60 ∣ b0.duration := hdvd b0 (List.mem_cons_self b0 rest)
  have hE0def : truncate now b0.duration = now - now % b0.duration :=
    truncate_eq_sub_mod now b0.duration h0pos
  have hsdef : truncate (now - c.WindowDuration) 60 =
      (now - c.WindowDuration) - (now - c.WindowDuration) % 60 :=
    truncate_eq_sub_mod _ 60 (by norm_num)
  have hmodw : (now - c.WindowDuration) % 60 = now % 60 := by
    obtain ⟨k, hk⟩ := hwdvd
    have h1 : now - c.WindowDuration + 60 * k = now := by omega
    have h2 := Nat.add_mul_mod_self_left (now - c.WindowDuration) 60 k
    rw [h1] at h2
    exact h2.symm
  have hm60d : now % 60 ≤ now % b0.duration := by
    have ha := Nat.mod_mod_of_dvd now h0dvd
    have hb2 := Nat.mod_le (now % b0.duration) 60
    omega
  have hmdlt : now % b0.duration < b0.duration := Nat.mod_lt now h0pos
  have hmodle : (now - c.WindowDuration) % 60 ≤ now - c.WindowDuration :=
    Nat.mod_le _ 60
  have hsleE0 : truncate (now - c.WindowDuration) 60 ≤ truncate now b0.duration := by
    omega
  have hpts : generatePoints c now =
      (b0, truncate now b0.duration) ::
        walkBuckets (truncate (now - c.WindowDuration) 60) (b0 :: rest)
          (truncate now b0.duration) := by
    unfold generatePoints
    rw [hb]
    rfl
  have hwalk := walkBuckets_chain (truncate (now - c.WindowDuration) 60) (b0 :: rest)
    (truncate now b0.duration) hsleE0
  have hlastlt := walkBuckets_last (truncate (now - c.WindowDuration) 60) (b0 :: rest)
    (truncate now b0.duration) blast hsleE0 hlast (by rw [hlast60]; norm_num)
  have hsum := chained_sum
    (walkBuckets (truncate (now - c.WindowDuration) 60) (b0 :: rest)
      (truncate now b0.duration))
    (truncate now b0.duration) hwalk.1
  have hdvdSum : 60 ∣ ((walkBuckets (truncate (now - c.WindowDuration) 60) (b0 :: rest)
      (truncate now b0.duration)).map (fun p => p.1.duration)).sum := by
    refine List.dvd_sum ?_
    intro x hx
    simp only [List.mem_map] at hx
    obtain ⟨p, hp, hpx⟩ := hx
    rw [← hpx]
    exact hdvd p.1 (walkBuckets_mem _ _ _ p hp)
  have hdvdE0 : 60 ∣ truncate now b0.duration :=
    Dvd.dvd.trans h0dvd (dvd_truncate now b0.duration h0pos)
  have hdvds : 60 ∣ truncate (now - c.WindowDuration) 60 :=
    dvd_truncate _ 60 (by norm_num)
  have hf_eq_s : lastStartBelow (truncate now b0.duration)
      (walkBuckets (truncate (now - c.WindowDuration) 60) (b0 :: rest)
        (truncate now b0.duration)) = truncate (now - c.WindowDuration) 60 := by
    have hfs := hwalk.2
    have hflt : lastStartBelow (truncate now b0.duration)
        (walkBuckets (truncate (now - c.WindowDuration) 60) (b0 :: rest)
          (truncate now b0.duration)) < truncate (now - c.WindowDuration) 60 + 60 := by
      rw [hlast60] at hlastlt
      exact hlastlt
    have hdvdf : 60 ∣ lastStartBelow (truncate now b0.duration)
        (walkBuckets (truncate (now - c.WindowDuration) 60) (b0 :: rest)
          (truncate now b0.duration)) := by
      have heq2 : lastStartBelow (truncate now b0.duration)
          (walkBuckets (truncate (now - c.WindowDuration) 60) (b0 :: rest)
            (truncate now b0.duration)) =
          truncate now b0.duration -
            ((walkBuckets (truncate (now - c.WindowDuration) 60) (b0 :: rest)
              (truncate now b0.duration)).map (fun p => p.1.duration)).sum := by
        omega
      rw [heq2]
      exact Nat.dvd_sub' hdvdE0 hdvdSum
    omega
  have hchain : chainedBelow (truncate now b0.duration + b0.duration)
      (generatePoints c now) = true := by
    rw [hpts]
    simp only [chainedBelow, beq_self_eq_true, Bool.true_and]
    exact hwalk.1
  have hlaststart : lastStartBelow (truncate now b0.duration + b0.duration)
      (generatePoints c now) = truncate (now - c.WindowDuration) 60 := by
    rw [hpts]
    simp only [lastStartBelow]
    exact hf_eq_s
  refine ⟨hchain, hlaststart, ?_, ?_, rfl⟩
  · intro x hx1 hx2
    refine chained_cover (generatePoints c now) (truncate now b0.duration + b0.duration)
      x hchain ?_ ?_
    · rw [hlaststart]
      omega
    · have := lt_truncate_add now b0.duration h0pos
      omega
  · rw [hpts]
    simp only [List.drop_succ_cons, List.drop_zero]
    have hmul := unitCount_mul
      (walkBuckets (truncate (now - c.WindowDuration) 60) (b0 :: rest)
        (truncate now b0.duration))
      (fun p hp => hdvd p.1 (walkBuckets_mem _ _ _ p hp))
    have hT60 : truncate now 60 = now - now % 60 := truncate_eq_sub_mod now 60 (by norm_num)
    rw [hf_eq_s] at hsum
    have hTE : 60 ∣ (truncate now 60 - truncate now b0.duration) :=
      Nat.dvd_sub' (dvd_truncate now 60 (by norm_num)) hdvdE0
    have hEleT : truncate now b0.duration ≤ truncate now 60 := by omega
    have hTS : truncate now 60 - truncate (now - c.WindowDuration) 60 = c.WindowDuration := by
      omega
    obtain ⟨ku, hku⟩ := hTE
    obtain ⟨kw, hkw⟩ := hwdvd
    have hdiv1 : (truncate now 60 - truncate now b0.duration) / 60 = ku := by omega
    have hdiv2 : c.WindowDuration / 60 = kw := by omega
    rw [hdiv1, hdiv2]
    omega

/-- Witness for C2 at the default bucket tiers, a 24h window and the
fixture instant: the tiling reaches exactly `startTime` and the synthetic
unit counters sum to 1440 = 24h / 1m. -/
theorem generateKeys_tiles_window_witness :
    lastStartBelow
      (truncate (mkInstant 2023 5 12 10 12) (NewBucket (4 * hourSec)).duration +
        (NewBucket (4 * hourSec)).duration)
      (generatePoints
        (NewCircuitBreaker
          [NewBucket (4 * hourSec), NewBucket hourSec, NewBucket (5 * minuteSec),
            NewBucket minuteSec] (24 * hourSec) ("test") (24 * hourSec))
        (mkInstant 2023 5 12 10 12)) =
      truncate (mkInstant 2023 5 12 10 12 -
        (NewCircuitBreaker
          [NewBucket (4 * hourSec), NewBucket hourSec, NewBucket (5 * minuteSec),
            NewBucket minuteSec] (24 * hourSec) ("test") (24 * hourSec)).WindowDuration) 60 ∧
    unitCount 60
      ((generatePoints
        (NewCircuitBreaker
          [NewBucket (4 * hourSec), NewBucket hourSec, NewBucket (5 * minuteSec),
            NewBucket minuteSec] (24 * hourSec) ("test") (24 * hourSec))
        (mkInstant 2023 5 12 10 12)).drop 1) +
      (truncate (mkInstant 2023 5 12 10 12) 60 -
        truncate (mkInstant 2023 5 12 10 12) (NewBucket (4 * hourSec)).duration) / 60 =
      (NewCircuitBreaker
        [NewBucket (4 * hourSec), NewBucket hourSec, NewBucket (5 * minuteSec),
          NewBucket minuteSec] (24 * hourSec) ("test") (24 * hourSec)).WindowDuration / 60 := by
  have h := generateKeys_tiles_window
    (NewCircuitBreaker
      [NewBucket (4 * hourSec), NewBucket hourSec, NewBucket (5 * minuteSec),
        NewBucket minuteSec] (24 * hourSec) ("test") (24 * hourSec))
    (mkInstant 2023 5 12 10 12)
    (NewBucket (4 * hourSec))
    [NewBucket hourSec, NewBucket (5 * minuteSec), NewBucket minuteSec]
    (NewBucket minuteSec)
    (by decide) (by decide) (by decide) (by decide) (by decide) (by decide)
    (by decide) (by decide)
  exact ⟨h.2.1, h.2.2.2.1⟩

end CircuitBreaker
